import Mathlib

/-!
Shallow embedding of the dnd-game repository core, and proofs checking the
specification claims against it.

The embedding follows the Python source:
* `src/dnd_ai_game/src/utils/data_manager.py` — the XML codec
  (`_parse_xml_node`, `_convert_dict_to_xml_elements`, `save_game_state`,
  `load_game_state`, `_get_next_session_filename`, `update_ai_config`);
* `src/dnd_ai_game/src/game/game_logic.py` — progression
  (`check_level_up`, `process_player_death`, entity merging, damage);
* `src/game.py` — the main interactive loop variant (damage clamping,
  skill checks with the 18-entry skill-to-ability table, its own
  `check_level_up`);
* `src/dnd_ai_game/src/ai/ai_logic.py` — the directive parser
  (`extract_keywords_from_ai_output`, `parse_and_apply_ai_config_command`).

Python dictionaries are modelled as association lists preserving insertion
order with unique keys (which Python guarantees); Python lists as `List`;
Python arbitrary-precision integers as `Int` (or `Nat` where the source
value is a parsed digit string); XML element trees as the inductive `Xml`.
File-system and network effects are factored out: functions receive the
data the Python code reads (the glob result, the parsed config document,
the narration text) as arguments.
-/

/-! ## Basic character and string helpers (Python `str` semantics) -/

/-- Python `str.isspace` test for a single character, used by `strip()`. -/
def isSpaceCh (c : Char) : Bool := c.isWhitespace

/-- Python regex `\w` class (ASCII range): letters, digits, underscore. -/
def isWordCh (c : Char) : Bool := c.isAlphanum || c == '_'

/-- The apostrophe character (code point 39). -/
def apostropheCh : Char := Char.ofNat 39

/-- Character class `[\w\s'-]` used by the entity-tag regexes in
`extract_keywords_from_ai_output`. -/
def isNameCh (c : Char) : Bool :=
  isWordCh c || isSpaceCh c || c == apostropheCh || c == '-'

/-- Python `str.strip()` on a character list: drop whitespace from both ends. -/
def pystrip (cs : List Char) : List Char :=
  ((cs.dropWhile isSpaceCh).reverse.dropWhile isSpaceCh).reverse

/-- Python `str.strip()` on a `String`. -/
def pystripS (s : String) : String := String.mk (pystrip s.data)

/-! ## The generic value type

`GVal` is the universal intermediate form the codec works on: Python
strings (`scalar`), Python lists (`list`) and Python dicts (`record`,
an insertion-ordered association list). -/

/-- Generic nested value: string scalar, ordered list, or ordered record. -/
inductive GVal where
  | scalar : String → GVal
  | list : List GVal → GVal
  | record : List (String × GVal) → GVal

/-- Test whether a value is a `list` (Python `isinstance(v, list)`). -/
def isListV : GVal → Bool
  | .list _ => true
  | _ => false

/-- XML element: tag, attributes, optional text, children
(the fragment of `xml.etree.ElementTree` the codec uses). -/
inductive Xml where
  | elem (tag : String) (attrs : List (String × String)) (text : Option String)
      (children : List Xml)

/-- Tag accessor for an XML element. -/
def Xml.tag : Xml → String
  | .elem t _ _ _ => t

/-- Attribute-list accessor for an XML element. -/
def Xml.attrs : Xml → List (String × String)
  | .elem _ a _ _ => a

/-- Children accessor for an XML element. -/
def Xml.children : Xml → List Xml
  | .elem _ _ _ c => c

mutual
/-- Python `repr` of a generic value (string escaping inside `repr` is not
modelled; it is never exercised by well-formed values, which never place a
list or dict where Python would call `str()` on it). -/
def pyRepr : GVal → String
  | .scalar s => String.mk (apostropheCh :: s.data) ++ String.mk [apostropheCh]
  | .list xs => "[" ++ pyReprItems xs ++ "]"
  | .record fs => "\x7b" ++ pyReprFields fs ++ "\x7d"

/-- Comma-separated `repr` of list items. -/
def pyReprItems : List GVal → String
  | [] => ""
  | [x] => pyRepr x
  | x :: xs => pyRepr x ++ ", " ++ pyReprItems xs

/-- Comma-separated `repr` of dict entries. -/
def pyReprFields : List (String × GVal) → String
  | [] => ""
  | [(k, v)] => pyRepr (.scalar k) ++ ": " ++ pyRepr v
  | (k, v) :: xs => pyRepr (.scalar k) ++ ": " ++ pyRepr v ++ ", " ++ pyReprFields xs
end

/-- Python `str()` of a generic value: identity on strings, `repr` otherwise. -/
def pyStr : GVal → String
  | .scalar s => s
  | v => pyRepr v

/-! ## Encoding (`_convert_dict_to_xml_elements` plus the per-key element
creation loops of `save_game_state`, data_manager.py lines 50–62 and 84–90) -/

/-- First-occurrence lookup in an association list
(Python `d[k]` read / `k in d` test / `d.get(k)`). -/
def lookupField {α : Type} : List (String × α) → String → Option α
  | [], _ => none
  | (k1, v1) :: rest, k => if k1 = k then some v1 else lookupField rest k

/-- Python `d[k] = v`: replace the value at an existing key in place, else
append the new key at the end (dict insertion-order semantics). -/
def setKey {α : Type} : List (String × α) → String → α → List (String × α)
  | [], k, v => [(k, v)]
  | (k1, v1) :: rest, k, v =>
      if k1 = k then (k, v) :: rest else (k1, v1) :: setKey rest k v

mutual
/-- Encoding of one value under an element with the given tag: the body of
`child = ET.SubElement(parent, key); _convert_dict_to_xml_elements(child, item)`.
A non-dict becomes element text via `str()`; a dict pops the reserved
`#text` key into element text and renders the remaining keys as children. -/
def encodeElem (tag : String) : GVal → Xml
  | .scalar s => .elem tag [] (some s) []
  | .list xs => .elem tag [] (some (pyRepr (.list xs))) []
  | .record fs =>
      .elem tag [] ((lookupField fs "#text").map pyStr) (encodeFields fs)

/-- The `for key, val in data.items()` loop of `_convert_dict_to_xml_elements`:
each non-`#text` key yields one child per list item (a non-list value is
wrapped as a one-item list by `val = val if isinstance(val, list) else [val]`). -/
def encodeFields : List (String × GVal) → List Xml
  | [] => []
  | (k, v) :: rest =>
      if k = "#text" then encodeFields rest
      else (match v with
        | .list items => encodeItems k items
        | w => [encodeElem k w]) ++ encodeFields rest

/-- The inner `for item in val` loop: one child element per list item. -/
def encodeItems (k : String) : List GVal → List Xml
  | [] => []
  | item :: items => encodeElem k item :: encodeItems k items
end

/-! ## Decoding (`_parse_xml_node`, data_manager.py lines 10–32) -/

/-- Merging one parsed child into the accumulated dict: a repeated tag
promotes the existing value to a list and appends (`_parse_xml_node`,
lines 26–31). -/
def addChild (data : List (String × GVal)) (tag : String) (parsed : GVal) :
    List (String × GVal) :=
  match lookupField data tag with
  | some (.list xs) => setKey data tag (.list (xs ++ [parsed]))
  | some w => setKey data tag (.list [w, parsed])
  | none => data ++ [(tag, parsed)]

mutual
/-- The body of `_parse_xml_node`: attributes seed the dict; with no
children, non-empty stripped text with no attributes is returned as a bare
scalar, text alongside attributes goes under `#text`; with children, each
child is parsed and merged under its tag. `node.text.strip() if node.text
else None` and the truthiness tests on `text` are modelled exactly. -/
def decodeElem : Xml → GVal
  | .elem _ attrs text children =>
    let data0 : List (String × GVal) := attrs.map (fun p => (p.1, GVal.scalar p.2))
    let t : Option String := match text with
      | none => none
      | some s => if s = "" then none else some (pystripS s)
    match children with
    | [] =>
      match t with
      | some ts =>
        if ts = "" then GVal.record data0
        else if data0.isEmpty then GVal.scalar ts
        else GVal.record (data0 ++ [("#text", GVal.scalar ts)])
      | none => GVal.record data0
    | c :: cs => GVal.record (decodeChildren data0 (c :: cs))

/-- The `for child in children` loop of `_parse_xml_node`. -/
def decodeChildren (data : List (String × GVal)) : List Xml → List (String × GVal)
  | [] => data
  | c :: cs => decodeChildren (addChild data c.tag (decodeElem c)) cs
end

/-! ## Well-formedness predicates for the round-trip claim (C1) -/

mutual
/-- Exactly the precondition of claim C1 as the spec states it: every list
in the value has size at least two (and nothing more). -/
def listsAtLeastTwo : GVal → Bool
  | .scalar _ => true
  | .list xs => decide (2 ≤ xs.length) && listsAtLeastTwoItems xs
  | .record fs => listsAtLeastTwoFields fs

/-- List-items part of `listsAtLeastTwo`. -/
def listsAtLeastTwoItems : List GVal → Bool
  | [] => true
  | x :: xs => listsAtLeastTwo x && listsAtLeastTwoItems xs

/-- Record-fields part of `listsAtLeastTwo`. -/
def listsAtLeastTwoFields : List (String × GVal) → Bool
  | [] => true
  | (_, v) :: rest => listsAtLeastTwo v && listsAtLeastTwoFields rest
end

/-- No-duplicate test on a key list (Python dict keys are unique). -/
def keysNodup : List String → Bool
  | [] => true
  | k :: ks => !(ks.contains k) && keysNodup ks

mutual
/-- Well-formedness under which the codec round-trips: scalars are
non-empty and stripped, lists have at least two elements none of which is
itself directly a list, records have unique keys and avoid the reserved
key `#text`. -/
def goodVal : GVal → Bool
  | .scalar s => !(s == "") && (pystripS s == s)
  | .list xs => decide (2 ≤ xs.length) && goodItems xs
  | .record fs => keysNodup (fs.map Prod.fst) && goodFields fs

/-- List-items part of `goodVal`: each item is good and not itself a list. -/
def goodItems : List GVal → Bool
  | [] => true
  | x :: xs => !(isListV x) && goodVal x && goodItems xs

/-- Record-fields part of `goodVal`: keys avoid `#text`, values are good. -/
def goodFields : List (String × GVal) → Bool
  | [] => true
  | (k, v) :: rest => !(k == "#text") && goodVal v && goodFields rest
end

/-- C1 counterexample. The claim asserts `decode(encode(v)) == v` for every
GenericValue whose lists all have size at least 2. The scalar `""` contains
no list at all, so it satisfies that precondition, yet encoding it yields an
element with empty text, which `_parse_xml_node` decodes to the empty record
(the `text` truthiness test fails), not back to the scalar. -/
theorem c1_roundtrip_counterexample :
    listsAtLeastTwo (GVal.scalar "") = true ∧
    decodeElem (encodeElem "Value" (GVal.scalar "")) = GVal.record [] ∧
    decodeElem (encodeElem "Value" (GVal.scalar "")) ≠ GVal.scalar "" :=
  ⟨rfl, rfl, fun h => nomatch h⟩

/-! ## Round-trip machinery for C1 -/

/-- Lookup distributes over append when the key is absent on the left. -/
theorem lookupField_append_left_none {α : Type} {data : List (String × α)} {k : String}
    (h : lookupField data k = none) (l : List (String × α)) :
    lookupField (data ++ l) k = lookupField l k := by
  induction data with
  | nil => rfl
  | cons p rest ih =>
    obtain ⟨k1, v1⟩ := p
    simp only [lookupField] at h
    by_cases hk : k1 = k
    · simp [hk] at h
    · simp only [List.cons_append, lookupField, if_neg hk] at h ⊢
      exact ih h

/-- Lookup of a different key ignores a single appended entry. -/
theorem lookupField_append_singleton_ne {α : Type} {q k : String} (h : q ≠ k)
    (data : List (String × α)) (x : α) :
    lookupField (data ++ [(k, x)]) q = lookupField data q := by
  induction data with
  | nil => simp [lookupField, Ne.symm h]
  | cons p rest ih =>
    obtain ⟨k1, v1⟩ := p
    by_cases hk : k1 = q <;> simp [lookupField, hk, ih]

/-- Overwriting a key that first occurs right after a key-free prefix
rewrites exactly that entry. -/
theorem setKey_append {α : Type} {data : List (String × α)} {k : String}
    (h : lookupField data k = none) (w u : α) (l : List (String × α)) :
    setKey (data ++ (k, w) :: l) k u = data ++ (k, u) :: l := by
  induction data with
  | nil => simp [setKey]
  | cons p rest ih =>
    obtain ⟨k1, v1⟩ := p
    simp only [lookupField] at h
    by_cases hk : k1 = k
    · simp [hk] at h
    · simp only [List.cons_append, setKey, if_neg hk, List.append_eq] at h ⊢
      rw [ih h]

/-- Merging a child under a fresh tag appends the entry. -/
theorem addChild_fresh {data : List (String × GVal)} {k : String}
    (h : lookupField data k = none) (v : GVal) :
    addChild data k v = data ++ [(k, v)] := by
  simp [addChild, h]

/-- Merging a second child under a tag whose current value is not a list
promotes that value to a two-element list. -/
theorem addChild_last_nonlist {data : List (String × GVal)} {k : String}
    (h : lookupField data k = none) {w : GVal} (hw : isListV w = false) (v : GVal) :
    addChild (data ++ [(k, w)]) k v = data ++ [(k, GVal.list [w, v])] := by
  have hl : lookupField (data ++ [(k, w)]) k = some w := by
    rw [lookupField_append_left_none h]
    simp [lookupField]
  unfold addChild
  rw [hl]
  cases w with
  | scalar s => exact setKey_append h _ _ []
  | list xs => simp [isListV] at hw
  | record fs => exact setKey_append h _ _ []

/-- Merging a further child under a tag whose current value is already a
list appends to that list. -/
theorem addChild_last_list {data : List (String × GVal)} {k : String}
    (h : lookupField data k = none) (xs : List GVal) (v : GVal) :
    addChild (data ++ [(k, GVal.list xs)]) k v =
      data ++ [(k, GVal.list (xs ++ [v]))] := by
  have hl : lookupField (data ++ [(k, GVal.list xs)]) k = some (GVal.list xs) := by
    rw [lookupField_append_left_none h]
    simp [lookupField]
  unfold addChild
  rw [hl]
  exact setKey_append h _ _ []

/-- The child-merging fold splits over list append. -/
theorem decodeChildren_append (data : List (String × GVal)) (es fs : List Xml) :
    decodeChildren data (es ++ fs) = decodeChildren (decodeChildren data es) fs := by
  induction es generalizing data with
  | nil => rfl
  | cons c cs ih =>
    simp only [List.cons_append, decodeChildren]
    exact ih _

/-- Round-trip property of a single value at every tag. -/
def RT (v : GVal) : Prop := ∀ tag, decodeElem (encodeElem tag v) = v

/-- What the round-trip argument needs of one record-field value: a list
value has length at least two and round-tripping non-list items, any other
value round-trips itself. -/
def FieldOK : GVal → Prop
  | .list items => 2 ≤ items.length ∧ ∀ x ∈ items, isListV x = false ∧ RT x
  | v => RT v

/-- The tag of an encoded element is the requested tag. -/
theorem encodeElem_tag (tag : String) (v : GVal) : (encodeElem tag v).tag = tag := by
  cases v <;> rfl

/-- Decoding the encodings of further list items appends them to the
accumulated list value. -/
theorem decodeChildren_items_acc {k : String} {data : List (String × GVal)}
    (h : lookupField data k = none) :
    ∀ (items : List GVal) (acc : List GVal),
      (∀ x ∈ items, isListV x = false ∧ RT x) →
      decodeChildren (data ++ [(k, GVal.list acc)]) (encodeItems k items) =
        data ++ [(k, GVal.list (acc ++ items))] := by
  intro items
  induction items with
  | nil => intro acc _; simp [encodeItems, decodeChildren]
  | cons x xs ih =>
    intro acc hx
    have hrt := hx x (by simp)
    simp only [encodeItems, decodeChildren, encodeElem_tag, hrt.2 k]
    rw [addChild_last_list h]
    rw [ih (acc ++ [x]) (fun y hy => hx y (by simp [hy]))]
    simp

/-- Decoding the encodings of a two-or-more-element list of non-list items
reconstructs exactly that list under its tag. -/
theorem decodeChildren_items {k : String} {data : List (String × GVal)}
    (h : lookupField data k = none) (a b : GVal) (rest : List GVal)
    (hx : ∀ x ∈ a :: b :: rest, isListV x = false ∧ RT x) :
    decodeChildren data (encodeItems k (a :: b :: rest)) =
      data ++ [(k, GVal.list (a :: b :: rest))] := by
  have ha := hx a (by simp)
  have hb := hx b (by simp)
  simp only [encodeItems, decodeChildren, encodeElem_tag, ha.2 k, hb.2 k]
  rw [addChild_fresh h, addChild_last_nonlist h ha.1]
  rw [decodeChildren_items_acc h rest [a, b] (fun y hy => hx y (by simp [hy]))]
  simp

/-- Unfolding of `encodeFields` at a scalar-valued field. -/
theorem encodeFields_cons_scalar {k : String} (hk : k ≠ "#text") (s : String)
    (rest : List (String × GVal)) :
    encodeFields ((k, GVal.scalar s) :: rest) =
      encodeElem k (GVal.scalar s) :: encodeFields rest := by
  simp [encodeFields, hk]

/-- Unfolding of `encodeFields` at a record-valued field. -/
theorem encodeFields_cons_record {k : String} (hk : k ≠ "#text")
    (gs rest : List (String × GVal)) :
    encodeFields ((k, GVal.record gs) :: rest) =
      encodeElem k (GVal.record gs) :: encodeFields rest := by
  simp [encodeFields, hk]

/-- Unfolding of `encodeFields` at a list-valued field. -/
theorem encodeFields_cons_list {k : String} (hk : k ≠ "#text")
    (items : List GVal) (rest : List (String × GVal)) :
    encodeFields ((k, GVal.list items) :: rest) =
      encodeItems k items ++ encodeFields rest := by
  simp [encodeFields, hk]

/-- Decoding the encoding of a record's fields reproduces the fields,
appended to whatever the dict already holds. -/
theorem decodeChildren_fields :
    ∀ (fs data : List (String × GVal)),
      (∀ p ∈ fs, p.1 ≠ "#text") →
      keysNodup (fs.map Prod.fst) = true →
      (∀ p ∈ fs, lookupField data p.1 = none) →
      (∀ p ∈ fs, FieldOK p.2) →
      decodeChildren data (encodeFields fs) = data ++ fs := by
  intro fs
  induction fs with
  | nil => intro data _ _ _ _; simp [encodeFields, decodeChildren]
  | cons p rest ih =>
    obtain ⟨k, v⟩ := p
    intro data htext hnd hfresh hok
    have hk : k ≠ "#text" := htext (k, v) (by simp)
    have hnd1 : ¬ ((rest.map Prod.fst).contains k = true) ∧
        keysNodup (rest.map Prod.fst) = true := by
      simpa [keysNodup, Bool.and_eq_true] using hnd
    have hknotin : k ∉ rest.map Prod.fst := by
      simpa using hnd1.1
    have hfresh1 : lookupField data k = none := hfresh (k, v) (by simp)
    have hfresh2 : ∀ x : GVal, ∀ p ∈ rest,
        lookupField (data ++ [(k, x)]) p.1 = none := by
      intro x q hq
      have hqk : q.1 ≠ k := by
        intro hcontra
        exact hknotin (hcontra ▸ List.mem_map_of_mem Prod.fst hq)
      rw [lookupField_append_singleton_ne hqk]
      exact hfresh q (by simp [hq])
    cases v with
    | scalar s =>
      have hrt : RT (GVal.scalar s) := hok (k, GVal.scalar s) (by simp)
      rw [encodeFields_cons_scalar hk]
      simp only [decodeChildren, encodeElem_tag, hrt k]
      rw [addChild_fresh hfresh1]
      rw [ih _ (fun q hq => htext q (by simp [hq])) hnd1.2
        (hfresh2 _) (fun q hq => hok q (by simp [hq]))]
      simp
    | record gs =>
      have hrt : RT (GVal.record gs) := hok (k, GVal.record gs) (by simp)
      rw [encodeFields_cons_record hk]
      simp only [decodeChildren, encodeElem_tag, hrt k]
      rw [addChild_fresh hfresh1]
      rw [ih _ (fun q hq => htext q (by simp [hq])) hnd1.2
        (hfresh2 _) (fun q hq => hok q (by simp [hq]))]
      simp
    | list items =>
      have hfo : FieldOK (GVal.list items) := hok (k, GVal.list items) (by simp)
      obtain ⟨hlen, hitems⟩ := hfo
      match items, hlen, hitems with
      | a :: b :: tl, _, hitems =>
        rw [encodeFields_cons_list hk]
        rw [decodeChildren_append]
        rw [decodeChildren_items hfresh1 a b tl hitems]
        rw [ih _ (fun q hq => htext q (by simp [hq])) hnd1.2
          (hfresh2 _) (fun q hq => hok q (by simp [hq]))]
        simp

/-- Good record fields never contain the reserved text key. -/
theorem goodFields_props :
    ∀ fs, goodFields fs = true → ∀ p ∈ fs, p.1 ≠ "#text" ∧ goodVal p.2 = true := by
  intro fs
  induction fs with
  | nil => intro _ p hp; simp at hp
  | cons q rest ih =>
    obtain ⟨k, v⟩ := q
    intro h p hp
    have h3 : ¬ (k == "#text") = true ∧ goodVal v = true ∧ goodFields rest = true := by
      simpa [goodFields, Bool.and_eq_true, and_assoc] using h
    rcases List.mem_cons.mp hp with hp1 | hp2
    · subst hp1
      exact ⟨by simpa using h3.1, h3.2.1⟩
    · exact ih h3.2.2 p hp2

/-- Good list items are good and not themselves lists. -/
theorem goodItems_props :
    ∀ xs, goodItems xs = true → ∀ x ∈ xs, isListV x = false ∧ goodVal x = true := by
  intro xs
  induction xs with
  | nil => intro _ x hx; simp at hx
  | cons y rest ih =>
    intro h x hx
    have h3 : ¬ (isListV y) = true ∧ goodVal y = true ∧ goodItems rest = true := by
      simpa [goodItems, Bool.and_eq_true, and_assoc] using h
    rcases List.mem_cons.mp hx with hx1 | hx2
    · subst hx1
      exact ⟨by simpa using h3.1, h3.2.1⟩
    · exact ih h3.2.2 x hx2

/-- Good fields make the reserved-key lookup fail. -/
theorem goodFields_lookup_text {fs : List (String × GVal)}
    (h : goodFields fs = true) : lookupField fs "#text" = none := by
  induction fs with
  | nil => rfl
  | cons q rest ih =>
    obtain ⟨k, v⟩ := q
    have h3 : ¬ (k == "#text") = true ∧ goodVal v = true ∧ goodFields rest = true := by
      simpa [goodFields, Bool.and_eq_true, and_assoc] using h
    have hk : k ≠ "#text" := by simpa using h3.1
    simp only [lookupField, if_neg hk]
    exact ih h3.2.2

/-- Decoding an attribute-free, text-free element is the child-merging fold. -/
theorem decodeElem_no_text (tag : String) (cs : List Xml) :
    decodeElem (.elem tag [] none cs) = GVal.record (decodeChildren [] cs) := by
  cases cs <;> rfl

/-- Every generic value has positive size. -/
theorem gval_sizeOf_pos (v : GVal) : 1 ≤ sizeOf v := by
  cases v <;> simp

/-- Bounded-size form of the round-trip theorem, by strong induction on the
size of the value. -/
theorem decode_encode_bounded :
    ∀ (n : Nat) (v : GVal), sizeOf v ≤ n → goodVal v = true → isListV v = false →
      ∀ tag, decodeElem (encodeElem tag v) = v := by
  intro n
  induction n with
  | zero =>
    intro v hv _ _ _
    have := gval_sizeOf_pos v
    omega
  | succ n ih =>
    intro v hv hg hnl tag
    cases v with
    | list xs => simp [isListV] at hnl
    | scalar s =>
      have hs : ¬ (s == "") = true ∧ (pystripS s == s) = true := by
        simpa [goodVal, Bool.and_eq_true] using hg
      have hs1 : s ≠ "" := by simpa using hs.1
      have hs2 : pystripS s = s := by simpa using hs.2
      simp [encodeElem, decodeElem, hs1, hs2]
    | record fs =>
      have hparts : keysNodup (fs.map Prod.fst) = true ∧ goodFields fs = true := by
        simpa [goodVal, Bool.and_eq_true] using hg
      have htext0 := goodFields_lookup_text hparts.2
      have hprops := goodFields_props fs hparts.2
      have henc : encodeElem tag (GVal.record fs) =
          Xml.elem tag [] none (encodeFields fs) := by
        simp [encodeElem, htext0]
      rw [henc, decodeElem_no_text]
      have hok : ∀ p ∈ fs, FieldOK p.2 := by
        intro p hp
        obtain ⟨a, b⟩ := p
        have hpv : goodVal b = true := (hprops _ hp).2
        have h2 : sizeOf (a, b) < sizeOf fs := List.sizeOf_lt_of_mem hp
        have h3 : sizeOf (GVal.record fs) ≤ n + 1 := hv
        simp at h2 h3
        have hsizeb : sizeOf b ≤ n := by omega
        cases b with
        | list items =>
          have hli : 2 ≤ items.length ∧ goodItems items = true := by
            simpa [goodVal, Bool.and_eq_true] using hpv
          refine ⟨hli.1, ?_⟩
          intro x hx
          have hxp := goodItems_props items hli.2 x hx
          have hx2 : sizeOf x < sizeOf items := List.sizeOf_lt_of_mem hx
          have hx3 : sizeOf x ≤ n := by
            simp at hsizeb
            omega
          exact ⟨hxp.1, fun tg => ih x hx3 hxp.2 hxp.1 tg⟩
        | scalar s =>
          exact fun tg => ih _ hsizeb hpv (by simp [isListV]) tg
        | record gs =>
          exact fun tg => ih _ hsizeb hpv (by simp [isListV]) tg
      rw [decodeChildren_fields fs [] (fun p hp => (hprops p hp).1) hparts.1
        (fun p hp => rfl) hok]
      simp

/-- C1, amended. The claim fails as stated (see `c1_roundtrip_counterexample`);
it holds once the value is additionally well-formed in the way the codec
needs: the top value is not itself a bare list, every scalar leaf is
non-empty and free of leading/trailing whitespace, every list has at least
two elements none of which is directly another list, and every record has
pairwise-distinct keys none of which is the reserved key `#text`. Under
these conditions (`goodVal`), decoding the element produced by encoding the
value under any tag returns exactly the same value. -/
theorem c1_roundtrip_amended (tag : String) (v : GVal)
    (hgood : goodVal v = true) (hnl : isListV v = false) :
    decodeElem (encodeElem tag v) = v :=
  decode_encode_bounded (sizeOf v) v le_rfl hgood hnl tag

/-- Concrete session-like value exercising nested records, a two-element
list and scalar leaves. -/
def c1WitnessValue : GVal :=
  GVal.record [
    ("campaignName", GVal.scalar "The Unwritten Tale"),
    ("Memory", GVal.record [("Fact",
        GVal.list [GVal.scalar "first fact", GVal.scalar "second fact"])]),
    ("KeyNPCs", GVal.list [GVal.scalar "Gorak", GVal.scalar "Elder Mira"]),
    ("playerStats", GVal.record [("Strength", GVal.scalar "10"),
        ("Dexterity", GVal.scalar "12")])]

/-- Witness for `c1_roundtrip_amended`: its hypotheses hold at
`c1WitnessValue` and the round-trip equation follows from the theorem. -/
theorem c1_roundtrip_witness :
    goodVal c1WitnessValue = true ∧ isListV c1WitnessValue = false ∧
    decodeElem (encodeElem "Session" c1WitnessValue) = c1WitnessValue :=
  ⟨rfl, rfl, c1_roundtrip_amended "Session" c1WitnessValue rfl rfl⟩

/-! ## Progression state (C2–C5)

`ProgState` is the player-progression slice of the mutable `game_state`
dict: `playerXP`, `playerLevel`, `playerHitPoints`, `playerMaxHitPoints`,
`playerStats`, `playerInventory`, `playerSkills`. -/

/-- Progression slice of the game state. -/
structure ProgState where
  xp : Int
  level : Int
  hp : Int
  maxHp : Int
  stats : List (String × Int)
  inventory : List String
  skills : List (String × Int)

/-! ## Damage (C2)

Modelled from `src/game.py` lines 764–768, the main-loop variant (the
spec's section 9 designates the more complete `game.py` loop as the
authoritative variant; the package loop in game_logic.py lines 222–230
subtracts damage without clamping). -/

/-- Damage application: `damage = int(...) if match else 0`, then
`if damage > 0: hp = max(0, hp - damage)`. -/
def applyDamage (hp : Int) (damage : Nat) : Int :=
  if 0 < damage then max 0 (hp - damage) else hp

/-- C2: for any state satisfying the hit-point invariant
`0 ≤ hp ≤ maxHp` and any parsed damage amount, the damage step sets hit
points to `max 0 (hp − damage)`, which stays within `[0, maxHp]`; in
particular hit points never become negative. -/
theorem c2_damage_clamp (hp maxHp : Int) (damage : Nat)
    (h0 : 0 ≤ hp) (h1 : hp ≤ maxHp) :
    applyDamage hp damage = max 0 (hp - damage) ∧
    0 ≤ applyDamage hp damage ∧ applyDamage hp damage ≤ maxHp := by
  have hmax : max 0 (hp - (damage : Int)) ≤ maxHp :=
    max_le (le_trans h0 h1) (by omega)
  by_cases hd : 0 < damage
  · refine ⟨?_, ?_, ?_⟩ <;> simp only [applyDamage, if_pos hd]
    · exact le_max_left _ _
    · exact hmax
  · have hz : (damage : Int) = 0 := by omega
    refine ⟨?_, ?_, ?_⟩ <;> simp only [applyDamage, if_neg hd]
    · rw [hz, sub_zero, max_eq_right h0]
    · exact h0
    · exact h1

/-- Witness for `c2_damage_clamp` at the spec's example: hit points 5,
damage 20, max hit points 20 — resulting hit points are exactly 0. -/
theorem c2_damage_clamp_witness :
    applyDamage 5 20 = 0 ∧ 0 ≤ applyDamage 5 20 ∧ applyDamage 5 20 ≤ 20 := by
  have h := c2_damage_clamp 5 20 20 (by decide) (by decide)
  refine ⟨?_, h.2.1, h.2.2⟩
  rw [h.1]
  decide

/-! ## Level-up (C3)

Both source variants are modelled. The package variant
(`game_logic.py` lines 89–105) subtracts the crossed threshold, raises max
hit points by 5, bumps one engine-chosen stat and heals, but is a single
`if` — one level-up per check. The main-loop variant (`game.py` lines
510–540) is a `while` loop but never subtracts XP and never raises max hit
points. The engine/player stat choice is passed in as a parameter. -/

/-- Increment the stat at a chosen index; out-of-range leaves the dict
unchanged (`game.py` treats an invalid interactive choice that way). -/
def bumpStat (stats : List (String × Int)) (pick : Nat) : List (String × Int) :=
  match stats[pick]? with
  | some (k, x) => stats.set pick (k, x + 1)
  | none => stats

/-- Package variant `check_level_up` (game_logic.py lines 89–105). -/
def check_level_up_pkg (pick : Nat) (s : ProgState) : ProgState :=
  let threshold := 100 * s.level
  if threshold ≤ s.xp then
    { s with
      level := s.level + 1,
      xp := s.xp - threshold,
      stats := bumpStat s.stats pick,
      maxHp := s.maxHp + 5,
      hp := s.maxHp + 5 }
  else s

/-- Main-loop variant `check_level_up` (game.py lines 510–540): the
`while xp >= threshold` loop; `xp` is read once before the loop and never
reassigned, so it never decreases; each pass raises the level, applies the
next interactive stat choice (an invalid one changes nothing) and heals to
the unchanged max hit points. -/
def check_level_up_main (picks : List (Option Nat)) (s : ProgState) : ProgState :=
  if _h : 100 * s.level ≤ s.xp then
    check_level_up_main picks.tail
      { s with
        level := s.level + 1,
        stats := match picks.head? with
          | some (some i) => bumpStat s.stats i
          | _ => s.stats,
        hp := s.maxHp }
  else s
termination_by (s.xp - 100 * s.level + 100).toNat
decreasing_by
  simp
  omega

/-- Sum of all stat values, to state that a level-up raises one stat by 1. -/
def statsSum (stats : List (String × Int)) : Int := (stats.map Prod.snd).sum

/-- Bumping a valid index raises the stat total by exactly one. -/
theorem statsSum_bump :
    ∀ (stats : List (String × Int)) (pick : Nat), pick < stats.length →
      statsSum (bumpStat stats pick) = statsSum stats + 1 := by
  intro stats
  induction stats with
  | nil => intro pick h; simp at h
  | cons p rest ih =>
    obtain ⟨k, x⟩ := p
    intro pick h
    cases pick with
    | zero =>
      simp [bumpStat, statsSum]
      ring
    | succ n =>
      have hn : n < rest.length := by simpa using h
      cases hq : rest[n]? with
      | none =>
        rw [List.getElem?_eq_none_iff] at hq
        omega
      | some q =>
        obtain ⟨qk, qx⟩ := q
        have ihn := ih n hn
        simp only [bumpStat, hq, statsSum, List.map_cons, List.sum_cons] at ihn
        simp only [bumpStat, List.getElem?_cons_succ, hq, List.set_cons_succ,
          statsSum, List.map_cons, List.sum_cons]
        omega

/-- XP grant followed by a level-up check, package variant (the main loop
grants XP by `game_state["playerXP"] += amount` and then calls
`check_level_up`). -/
def grantAndCheckPkg (pick : Nat) (amount : Int) (s : ProgState) : ProgState :=
  check_level_up_pkg pick { s with xp := s.xp + amount }

/-- XP grant followed by a level-up check, main-loop variant. -/
def grantAndCheckMain (picks : List (Option Nat)) (amount : Int)
    (s : ProgState) : ProgState :=
  check_level_up_main picks { s with xp := s.xp + amount }

/-- The spec's level-up scenario start: level 1, XP 0, the six default
stats at 10, hit points 10/10. -/
def c3StartState : ProgState :=
  { xp := 0, level := 1, hp := 10, maxHp := 10,
    stats := [("Strength", 10), ("Dexterity", 10), ("Constitution", 10),
      ("Intelligence", 10), ("Wisdom", 10), ("Charisma", 10)],
    inventory := [], skills := [] }

/-- Scenario final state, package variant: grants of +100, +100, +50 with
a check after each grant. -/
def c3FinalPkg : ProgState :=
  grantAndCheckPkg 0 50 (grantAndCheckPkg 0 100 (grantAndCheckPkg 0 100 c3StartState))

/-- Scenario final state, main-loop variant (no valid stat picks given). -/
def c3FinalMain : ProgState :=
  grantAndCheckMain [] 50 (grantAndCheckMain [] 100 (grantAndCheckMain [] 100 c3StartState))

/-- C3 counterexample. The claim predicts that the scenario (+100, +100,
+50 from level 1, XP 0, with a check after each grant) ends at level 2 with
XP 50. Neither implementation does that: the package variant
(single-`if` check that subtracts the threshold) ends at level 2 with
XP 150, and the main-loop variant (`while` loop that never subtracts XP)
ends at level 3 with XP 250. -/
theorem c3_levelup_counterexample :
    (c3FinalPkg.level = 2 ∧ c3FinalPkg.xp = 150) ∧
    (c3FinalMain.level = 3 ∧ c3FinalMain.xp = 250) ∧
    ¬ (c3FinalPkg.xp = 50) ∧ ¬ (c3FinalMain.level = 2 ∧ c3FinalMain.xp = 50) := by
  have hmain : c3FinalMain.level = 3 ∧ c3FinalMain.xp = 250 := by
    simp [c3FinalMain, grantAndCheckMain, c3StartState, check_level_up_main]
  refine ⟨⟨rfl, rfl⟩, hmain, by decide, ?_⟩
  intro hc
  rw [hmain.1] at hc
  exact absurd hc.1 (by decide)

/-- C3, amended: the package-variant level-up check (`game_logic.py`)
performs at most one level-up per call — it is a single conditional, not a
loop. When `XP ≥ 100 × level` it raises the level by one, subtracts the
crossed threshold `100 × level` from XP, raises the stat total by exactly
one (for a valid engine-chosen stat index), adds 5 to max hit points and
resets hit points to the new maximum; otherwise it changes nothing, and in
all cases the level grows by at most one. The spec scenario (+100, +100,
+50 from level 1, XP 0, with a check after each grant) therefore ends at
level 2 with XP 150. (The main-loop variant in `game.py` loops but never
subtracts XP and never raises max hit points; see the counterexample.) -/
theorem c3_levelup_amended :
    (∀ (s : ProgState) (pick : Nat), 100 * s.level ≤ s.xp →
      (check_level_up_pkg pick s).level = s.level + 1 ∧
      (check_level_up_pkg pick s).xp = s.xp - 100 * s.level ∧
      (check_level_up_pkg pick s).maxHp = s.maxHp + 5 ∧
      (check_level_up_pkg pick s).hp = (check_level_up_pkg pick s).maxHp ∧
      (pick < s.stats.length →
        statsSum (check_level_up_pkg pick s).stats = statsSum s.stats + 1)) ∧
    (∀ (s : ProgState) (pick : Nat), ¬ 100 * s.level ≤ s.xp →
      check_level_up_pkg pick s = s) ∧
    (∀ (s : ProgState) (pick : Nat),
      (check_level_up_pkg pick s).level ≤ s.level + 1) ∧
    c3FinalPkg.level = 2 ∧ c3FinalPkg.xp = 150 := by
  refine ⟨?_, ?_, ?_, rfl, rfl⟩
  · intro s pick hcond
    refine ⟨?_, ?_, ?_, ?_, ?_⟩ <;>
      simp only [check_level_up_pkg, if_pos hcond]
    exact fun hlt => statsSum_bump s.stats pick hlt
  · intro s pick hcond
    simp only [check_level_up_pkg, if_neg hcond]
  · intro s pick
    by_cases hcond : 100 * s.level ≤ s.xp
    · simp only [check_level_up_pkg, if_pos hcond]
      omega
    · simp only [check_level_up_pkg, if_neg hcond]
      omega

/-- State for the `c3_levelup_amended` witness: level 1 with 120 XP. -/
def c3WitnessState : ProgState := { c3StartState with xp := 120 }

/-- Witness for `c3_levelup_amended`: one check at level 1 with 120 XP
yields level 2, XP 20, max hit points 15 and a stat total of 61. -/
theorem c3_levelup_witness :
    (check_level_up_pkg 0 c3WitnessState).level = 2 ∧
    (check_level_up_pkg 0 c3WitnessState).xp = 20 ∧
    (check_level_up_pkg 0 c3WitnessState).maxHp = 15 ∧
    statsSum (check_level_up_pkg 0 c3WitnessState).stats = 61 := by
  have h := c3_levelup_amended.1 c3WitnessState 0 (by decide)
  refine ⟨?_, ?_, ?_, ?_⟩
  · rw [h.1]; decide
  · rw [h.2.1]; decide
  · rw [h.2.2.1]; decide
  · rw [h.2.2.2.2 (by decide)]; decide

/-! ## Death and revival (C4)

Modelled from `process_player_death` (game_logic.py lines 107–117); the
near-duplicate inline block in game.py lines 769–784 behaves the same way
with a differently ordered item list. -/

/-- The fixed ordered revival item list (game_logic.py line 109). -/
def revival_items : List String := ["Phoenix Feather", "Blessing of Resurrection"]

/-- Python `list.remove(x)`: drop the first occurrence of `x`. -/
def pyRemove : List String → String → List String
  | [], _ => []
  | x :: rest, y => if x = y then rest else x :: pyRemove rest y

/-- The `for item in revival_items` scan of `process_player_death`: the
first listed item present in the inventory is removed (one copy) and hit
points are set to `maxHp // 2` (Python floor division) — the player
survives (`False`); with no match the state is untouched and the player is
dead (`True`), upon which the caller saves and ends the session. -/
def reviveScan : List String → ProgState → ProgState × Bool
  | [], s => (s, true)
  | item :: rest, s =>
      if item ∈ s.inventory then
        ({ s with
            inventory := pyRemove s.inventory item,
            hp := Int.fdiv s.maxHp 2 }, false)
      else reviveScan rest s

/-- `process_player_death(game_state)`. -/
def process_player_death (s : ProgState) : ProgState × Bool :=
  reviveScan revival_items s

/-- Removing a present element shortens the list by exactly one. -/
theorem pyRemove_length :
    ∀ (l : List String) (x : String), x ∈ l →
      (pyRemove l x).length + 1 = l.length := by
  intro l
  induction l with
  | nil => intro x hx; simp at hx
  | cons y rest ih =>
    intro x hx
    by_cases hxy : y = x
    · simp [pyRemove, hxy]
    · have hx2 : x ∈ rest := by
        rcases List.mem_cons.mp hx with h1 | h2
        · exact absurd h1.symm hxy
        · exact h2
      simp only [pyRemove, if_neg hxy, List.length_cons]
      rw [← ih x hx2]

/-- Scanning a prefix of absent items skips it. -/
theorem reviveScan_skip :
    ∀ (pre : List String) (rest : List String) (s : ProgState),
      (∀ r ∈ pre, r ∉ s.inventory) →
      reviveScan (pre ++ rest) s = reviveScan rest s := by
  intro pre
  induction pre with
  | nil => intro rest s _; rfl
  | cons p ptl ih =>
    intro rest s habs
    have hp : p ∉ s.inventory := habs p (by simp)
    simp only [List.cons_append, reviveScan, if_neg hp]
    exact ih rest s (fun r hr => habs r (by simp [hr]))

/-- C4: when hit points have dropped to zero or below, death resolution
scans the fixed ordered revival list against the inventory. If `item` is
the first listed item present, exactly one copy of it is removed, hit
points become `maxHp // 2` (floor division) and the player survives (the
session continues); if no listed item is present the state is unchanged
and the result is death (the caller persists and the session ends). -/
theorem c4_death_revival (s : ProgState) :
    (∀ (pre : List String) (item : String) (post : List String),
      revival_items = pre ++ item :: post →
      (∀ r ∈ pre, r ∉ s.inventory) →
      item ∈ s.inventory →
      process_player_death s =
        ({ s with
            inventory := pyRemove s.inventory item,
            hp := Int.fdiv s.maxHp 2 }, false) ∧
      ((process_player_death s).1.inventory.length + 1 = s.inventory.length)) ∧
    ((∀ r ∈ revival_items, r ∉ s.inventory) →
      process_player_death s = (s, true)) := by
  constructor
  · intro pre item post hsplit habs hmem
    have heq : process_player_death s =
        ({ s with
            inventory := pyRemove s.inventory item,
            hp := Int.fdiv s.maxHp 2 }, false) := by
      unfold process_player_death
      rw [hsplit, reviveScan_skip pre (item :: post) s habs]
      simp only [reviveScan, if_pos hmem]
    refine ⟨heq, ?_⟩
    rw [heq]
    exact pyRemove_length s.inventory item hmem
  · intro habs
    unfold process_player_death
    have h2 : revival_items = revival_items ++ [] := by simp
    rw [h2, reviveScan_skip revival_items [] s habs]
    rfl

/-- Inventory and hit points for the `c4_death_revival` witness: the
spec's revival scenario (a Phoenix Feather, max hit points 20, hit points
driven to −5). -/
def c4WitnessState : ProgState :=
  { xp := 0, level := 1, hp := -5, maxHp := 20,
    stats := [], inventory := ["Rope", "Phoenix Feather"], skills := [] }

/-- Witness for `c4_death_revival`: the feather is consumed, hit points
become 10 and the player survives. -/
theorem c4_death_revival_witness :
    process_player_death c4WitnessState =
      ({ c4WitnessState with inventory := ["Rope"], hp := 10 }, false) ∧
    (process_player_death c4WitnessState).1.inventory.length + 1 =
      c4WitnessState.inventory.length := by
  have h := (c4_death_revival c4WitnessState).1 []
    "Phoenix Feather" ["Blessing of Resurrection"] rfl
    (by intro r hr; simp at hr) (by decide)
  refine ⟨?_, h.2⟩
  rw [h.1]
  rfl

/-! ## Skill checks (C5)

Modelled from the first skill-check block of `game.py`
(lines 710–754), the only variant with the skill-to-ability table. -/

/-- The fixed 18-entry skill-to-ability table (game.py lines 723–742). -/
def skill_to_stat : List (String × String) :=
  [("Acrobatics", "Dexterity"), ("Animal Handling", "Wisdom"),
   ("Arcana", "Intelligence"), ("Athletics", "Strength"),
   ("Deception", "Charisma"), ("History", "Intelligence"),
   ("Insight", "Wisdom"), ("Intimidation", "Charisma"),
   ("Investigation", "Intelligence"), ("Medicine", "Wisdom"),
   ("Nature", "Intelligence"), ("Perception", "Wisdom"),
   ("Performance", "Charisma"), ("Persuasion", "Charisma"),
   ("Religion", "Intelligence"), ("Sleight of Hand", "Dexterity"),
   ("Stealth", "Dexterity"), ("Survival", "Wisdom")]

/-- Ability ("stat") modifier for a skill check (game.py lines 744–749):
table lookup, then `(score - 10) // 2` (Python floor division) on the
looked-up ability score; zero when the table or the stats dict misses. -/
def abilityMod (stats : List (String × Int)) (skill : String) : Int :=
  match lookupField skill_to_stat skill with
  | some statName =>
      match lookupField stats statName with
      | some score => Int.fdiv (score - 10) 2
      | none => 0
  | none => 0

/-- Skill-check resolution (game.py lines 715–751): an unseen skill is
first added to `playerSkills` with modifier 0, then
`skill_mod = playerSkills.get(skill_name, 0)` and the total is
`roll_result + skill_mod + stat_mod`. Returns the updated state and the
total roll. -/
def resolveSkillCheck (roll : Int) (skill : String) (s : ProgState) :
    ProgState × Int :=
  let skills2 := if (lookupField s.skills skill).isSome then s.skills
    else s.skills ++ [(skill, 0)]
  let skillMod := (lookupField skills2 skill).getD 0
  ({ s with skills := skills2 }, roll + skillMod + abilityMod s.stats skill)

/-- C5: resolving a skill check for a skill name not yet in the player's
skill map first adds it with modifier 0; the check total equals
`roll + storedSkillModifier + abilityModifier`, where the ability is
looked up in the fixed 18-entry skill-to-ability table, the ability
modifier is `(score − 10) // 2` (floor division) on the looked-up ability
score, and 0 for a skill with no table entry. -/
theorem c5_skill_check (roll : Int) (skill : String) (s : ProgState)
    (hnew : lookupField s.skills skill = none) :
    (resolveSkillCheck roll skill s).1.skills = s.skills ++ [(skill, 0)] ∧
    (resolveSkillCheck roll skill s).2 = roll + 0 + abilityMod s.stats skill ∧
    skill_to_stat.length = 18 ∧
    (lookupField skill_to_stat skill = none → abilityMod s.stats skill = 0) ∧
    (∀ ab score, lookupField skill_to_stat skill = some ab →
      lookupField s.stats ab = some score →
      abilityMod s.stats skill = Int.fdiv (score - 10) 2) := by
  have hget : lookupField (s.skills ++ [(skill, 0)]) skill = some 0 := by
    rw [lookupField_append_left_none hnew]
    simp [lookupField]
  refine ⟨?_, ?_, rfl, ?_, ?_⟩
  · simp [resolveSkillCheck, hnew]
  · simp [resolveSkillCheck, hnew, hget]
  · intro hnone
    simp [abilityMod, hnone]
  · intro ab score h1 h2
    simp [abilityMod, h1, h2]

/-- State for the `c5_skill_check` witness: Dexterity 14, Stealth unseen. -/
def c5WitnessState : ProgState :=
  { xp := 0, level := 1, hp := 10, maxHp := 10,
    stats := [("Strength", 10), ("Dexterity", 14), ("Constitution", 10),
      ("Intelligence", 10), ("Wisdom", 10), ("Charisma", 10)],
    inventory := [], skills := [("Athletics", 1)] }

/-- Witness for `c5_skill_check`: a Stealth check on a roll of 11 stores
Stealth at modifier 0 and totals `11 + 0 + (14 − 10) // 2 = 13`. -/
theorem c5_skill_check_witness :
    (resolveSkillCheck 11 "Stealth" c5WitnessState).1.skills =
      [("Athletics", 1), ("Stealth", 0)] ∧
    (resolveSkillCheck 11 "Stealth" c5WitnessState).2 = 13 := by
  have h := c5_skill_check 11 "Stealth" c5WitnessState rfl
  constructor
  · rw [h.1]; rfl
  · rw [h.2.1, h.2.2.2.2 "Dexterity" 14 rfl rfl]
    decide

/-! ## Entity-tag extraction (C6)

Modelled from `extract_keywords_from_ai_output` (ai_logic.py lines
149–162), the variant with `[MERCHANT]` handling and `re.IGNORECASE`.
`re.findall(r"([\w\s'-]+)\s*\[TAG\]", text)` captures, at each
non-overlapping leftmost match, the greedy maximal run of
word/space/apostrophe/hyphen characters immediately preceding the
bracketed tag (the run itself swallows any trailing whitespace, `\s*`
matching empty); the scan below collects exactly those runs. -/

/-- Case-insensitive literal prefix test for the bracketed tag
(`re.IGNORECASE`); non-consuming. -/
def tagHeadCI : List Char → List Char → Bool
  | [], _ => true
  | _ :: _, [] => false
  | p :: ps, c :: cs => (p.toLower == c.toLower) && tagHeadCI ps cs

/-- Left-to-right scan collecting, for one tag, every maximal
`[\w\s'-]+` run immediately followed by the tag literal; `run` holds the
current run reversed. Since the tag starts with `[`, which is outside the
character class, rescanning the tag body can produce no further capture,
so continuing at the next character is equivalent to skipping the tag. -/
def scanTagRuns (tagPat : List Char) (run : List Char) : List Char → List (List Char)
  | [] => []
  | c :: rest =>
      if isNameCh c then scanTagRuns tagPat (c :: run) rest
      else if !run.isEmpty && tagHeadCI tagPat (c :: rest) then
        run.reverse :: scanTagRuns tagPat [] rest
      else scanTagRuns tagPat [] rest

/-- Raw (unstripped) captures of one tag over a narration string. -/
def tagCaptures (tag : String) (text : String) : List String :=
  (scanTagRuns tag.data [] text.data).map String.mk

/-- The body of `extract_keywords_from_ai_output`: empty (falsy) text
returns the empty dict; otherwise the NPC, LOCATION, ITEM and MERCHANT
captures are collected and the merchant captures are appended to both the
NPC and the LOCATION candidate lists, every capture stripped. -/
def extract_keywords_from_ai_output (text : String) : List (String × List String) :=
  if text = "" then []
  else
    [("KeyNPCs",
        ((tagCaptures "[NPC]" text) ++ (tagCaptures "[MERCHANT]" text)).map pystripS),
     ("KeyLocations",
        ((tagCaptures "[LOCATION]" text) ++ (tagCaptures "[MERCHANT]" text)).map pystripS),
     ("KeyItems", (tagCaptures "[ITEM]" text).map pystripS)]

/-- NPC candidate list of an extraction result. -/
def npcCandidates (text : String) : List String :=
  (lookupField (extract_keywords_from_ai_output text) "KeyNPCs").getD []

/-- Location candidate list of an extraction result. -/
def locationCandidates (text : String) : List String :=
  (lookupField (extract_keywords_from_ai_output text) "KeyLocations").getD []

/-- Item candidate list of an extraction result. -/
def itemCandidates (text : String) : List String :=
  (lookupField (extract_keywords_from_ai_output text) "KeyItems").getD []

/-- The spec's entity-tag scenario narration. -/
def c6Narration : String := "You meet Elder Mira [NPC] at the Sunken Market [MERCHANT]."

/-- C6 counterexample. The greedy group `([\w\s'-]+)` captures the entire
maximal run of word/space characters before each tag, so on the spec's
scenario the NPC candidates are "You meet Elder Mira" and
"at the Sunken Market" — the claimed candidates "Elder Mira" and
"Sunken Market" are not produced. -/
theorem c6_entity_tags_counterexample :
    npcCandidates c6Narration = ["You meet Elder Mira", "at the Sunken Market"] ∧
    locationCandidates c6Narration = ["at the Sunken Market"] ∧
    "Elder Mira" ∉ npcCandidates c6Narration ∧
    "Sunken Market" ∉ locationCandidates c6Narration := by
  refine ⟨rfl, rfl, ?_, ?_⟩ <;> decide

/-- C6, amended: for every narration text, each tag's captures are
collected in order of appearance, but a capture is the entire maximal run
of word/space/apostrophe/hyphen characters immediately preceding the tag,
trimmed — not just the entity name; every `[MERCHANT]` capture is
contributed to both the NPC and the LOCATION candidate lists. On the
spec's scenario the NPC candidates are therefore
"You meet Elder Mira" and "at the Sunken Market", and the location
candidates "at the Sunken Market". -/
theorem c6_entity_tags_amended :
    (∀ (text cap : String), cap ∈ tagCaptures "[MERCHANT]" text →
      pystripS cap ∈ npcCandidates text ∧ pystripS cap ∈ locationCandidates text) ∧
    npcCandidates c6Narration = ["You meet Elder Mira", "at the Sunken Market"] ∧
    locationCandidates c6Narration = ["at the Sunken Market"] ∧
    itemCandidates c6Narration = [] := by
  refine ⟨?_, rfl, rfl, rfl⟩
  intro text cap hcap
  by_cases htext : text = ""
  · subst htext
    simp [tagCaptures, scanTagRuns] at hcap
  · constructor
    · have hnpc : npcCandidates text =
          ((tagCaptures "[NPC]" text) ++ (tagCaptures "[MERCHANT]" text)).map pystripS := by
        simp [npcCandidates, extract_keywords_from_ai_output, htext, lookupField]
      rw [hnpc]
      exact List.mem_map_of_mem pystripS (List.mem_append_right _ hcap)
    · have hloc : locationCandidates text =
          ((tagCaptures "[LOCATION]" text) ++ (tagCaptures "[MERCHANT]" text)).map pystripS := by
        simp [locationCandidates, extract_keywords_from_ai_output, htext, lookupField]
      rw [hloc]
      exact List.mem_map_of_mem pystripS (List.mem_append_right _ hcap)

/-- Witness for `c6_entity_tags_amended`: the one merchant capture of the
scenario narration lands in both candidate lists. -/
theorem c6_entity_tags_witness :
    " at the Sunken Market " ∈ tagCaptures "[MERCHANT]" c6Narration ∧
    pystripS " at the Sunken Market " ∈ npcCandidates c6Narration ∧
    pystripS " at the Sunken Market " ∈ locationCandidates c6Narration := by
  have hmem : " at the Sunken Market " ∈ tagCaptures "[MERCHANT]" c6Narration := by
    decide
  have h := c6_entity_tags_amended.1 c6Narration " at the Sunken Market " hmem
  exact ⟨hmem, h.1, h.2⟩

/-! ## Entity merge (C7)

Modelled from the keyword-merging loop (game_logic.py lines 216–220 and
game.py lines 758–761): `if v and v not in game_state[k]:
game_state[k].append(v)`. -/

/-- Merge one extracted entity name into a key list: append only a
non-empty name not already present. -/
def mergeEntity (lst : List String) (v : String) : List String :=
  if v ≠ "" ∧ v ∉ lst then lst ++ [v] else lst

/-- C7: the entity merge is set-like and idempotent — merging a name that
is already present leaves the list unchanged, merging the same name twice
equals merging it once, and merging "Gorak" twice into a list without it
yields exactly one "Gorak" entry, appended at the first-seen position. -/
theorem c7_merge_idempotent :
    (∀ (lst : List String) (v : String),
      mergeEntity (mergeEntity lst v) v = mergeEntity lst v) ∧
    (∀ (lst : List String) (v : String), v ∈ lst → mergeEntity lst v = lst) ∧
    mergeEntity (mergeEntity ["Elder Mira"] "Gorak") "Gorak" =
      ["Elder Mira", "Gorak"] ∧
    (mergeEntity (mergeEntity ["Elder Mira"] "Gorak") "Gorak").count "Gorak" = 1 := by
  have hpresent : ∀ (lst : List String) (v : String), v ∈ lst →
      mergeEntity lst v = lst := by
    intro lst v hv
    have : ¬ (v ≠ "" ∧ v ∉ lst) := fun hc => hc.2 hv
    simp [mergeEntity, this]
  refine ⟨?_, hpresent, by decide, by decide⟩
  intro lst v
  by_cases hc : v ≠ "" ∧ v ∉ lst
  · have h1 : mergeEntity lst v = lst ++ [v] := by simp [mergeEntity, hc]
    rw [h1]
    exact hpresent _ v (by simp)
  · have h1 : mergeEntity lst v = lst := by simp only [mergeEntity, if_neg hc]
    rw [h1, h1]

/-- Witness for `c7_merge_idempotent`: merging "Gorak" into a list already
holding it changes nothing. -/
theorem c7_merge_idempotent_witness :
    "Gorak" ∈ ["Gorak", "Elder Mira"] ∧
    mergeEntity ["Gorak", "Elder Mira"] "Gorak" = ["Gorak", "Elder Mira"] := by
  refine ⟨by decide, ?_⟩
  exact c7_merge_idempotent.2.1 ["Gorak", "Elder Mira"] "Gorak" (by decide)

/-! ## Configuration directive (C8)

Modelled from `parse_and_apply_ai_config_command` (ai_logic.py lines
170–176) and `update_ai_config` (data_manager.py lines 188–198). The AI
configuration document is modelled as the ordered list of its child
elements as (tag, text) pairs. -/

/-- Case-insensitive consuming literal match (`re.IGNORECASE`): the rest
of the text when it starts with the pattern. -/
def matchCI : List Char → List Char → Option (List Char)
  | [], rest => some rest
  | _ :: _, [] => none
  | p :: ps, c :: cs => if p.toLower == c.toLower then matchCI ps cs else none

/-- Non-newline character test (regex class `[^\n\r]`). -/
def notNL (c : Char) : Bool := !(c == Char.ofNat 10 || c == Char.ofNat 13)

/-- The capture of `\s*([^\n\r]+)` with greedy backtracking: normally the
run of non-newline characters after skipping leading whitespace; when only
whitespace remains, the greedy `\s*` backs off just enough to hand the
last non-newline character to the group. `none` when no non-newline
character remains at all. -/
def valueCapture (cs : List Char) : Option (List Char) :=
  let rest := cs.dropWhile isSpaceCh
  if !rest.isEmpty then some (rest.takeWhile notNL)
  else
    match (cs.filter notNL).getLast? with
    | some c => some [c]
    | none => none

/-- The full pattern `CONFIG:\s*Set\s+(\w+)\s*=\s*([^\n\r]+)` anchored at
the start of the text (`\s` spans newlines); returns the raw key and value
captures. -/
def tryConfigAt (cs : List Char) : Option (List Char × List Char) :=
  match matchCI "CONFIG:".data cs with
  | none => none
  | some r1 =>
    match matchCI "Set".data (r1.dropWhile isSpaceCh) with
    | none => none
    | some r3 =>
      let r4 := r3.dropWhile isSpaceCh
      if r3.length == r4.length then none
      else
        let key := r4.takeWhile isWordCh
        if key.isEmpty then none
        else
          match (r4.dropWhile isWordCh).dropWhile isSpaceCh with
          | '=' :: r7 =>
            match valueCapture r7 with
            | some v => some (key, v)
            | none => none
          | _ => none

/-- Leftmost-match search (`re.search`): try the directive pattern at
every position. -/
def findConfig : List Char → Option (List Char × List Char)
  | [] => none
  | c :: rest =>
    match tryConfigAt (c :: rest) with
    | some kv => some kv
    | none => findConfig rest

/-- `update_ai_config(key, value)` over the config element list:
`root.find(key)` locates the first child with the matching tag and its
text is overwritten; with no match `ET.SubElement` appends a new child. -/
def update_ai_config (cfg : List (String × String)) (key value : String) :
    List (String × String) :=
  setKey cfg key value

/-- `parse_and_apply_ai_config_command(ai_output)` applied to a config
list: falsy text does nothing; otherwise the first directive match (if
any) updates exactly its key with the trimmed value. -/
def parse_and_apply_ai_config_command (text : String)
    (cfg : List (String × String)) : List (String × String) :=
  if text = "" then cfg
  else
    match findConfig text.data with
    | some (k, v) => update_ai_config cfg (String.mk k) (pystripS (String.mk v))
    | none => cfg

/-- Setting a key makes its first-occurrence lookup the new value. -/
theorem lookupField_setKey_self {α : Type} :
    ∀ (cfg : List (String × α)) (key : String) (value : α),
      lookupField (setKey cfg key value) key = some value := by
  intro cfg key value
  induction cfg with
  | nil => simp [setKey, lookupField]
  | cons p rest ih =>
    obtain ⟨k1, v1⟩ := p
    by_cases hk : k1 = key
    · simp [setKey, hk, lookupField]
    · simp [setKey, hk, lookupField, ih]

/-- Setting a key leaves every other key's lookup unchanged. -/
theorem lookupField_setKey_ne {α : Type} :
    ∀ (cfg : List (String × α)) (key k2 : String) (value : α), k2 ≠ key →
      lookupField (setKey cfg key value) k2 = lookupField cfg k2 := by
  intro cfg key k2 value hne
  induction cfg with
  | nil => simp [setKey, lookupField, Ne.symm hne]
  | cons p rest ih =>
    obtain ⟨k1, v1⟩ := p
    by_cases hk : k1 = key
    · subst hk
      simp [setKey, lookupField, Ne.symm hne]
    · by_cases hk2 : k1 = k2 <;> simp [setKey, hk, lookupField, hk2, ih, hne]

/-- Setting a present key rewrites in place, preserving length. -/
theorem setKey_length_of_present {α : Type} :
    ∀ (cfg : List (String × α)) (key : String) (value : α),
      (lookupField cfg key).isSome = true →
      (setKey cfg key value).length = cfg.length := by
  intro cfg key value
  induction cfg with
  | nil => intro h; simp [lookupField] at h
  | cons p rest ih =>
    obtain ⟨k1, v1⟩ := p
    intro h
    by_cases hk : k1 = key
    · simp [setKey, hk]
    · simp only [lookupField, if_neg hk] at h
      simp [setKey, hk, ih h]

/-- Setting an absent key appends it at the end. -/
theorem setKey_append_of_absent {α : Type} :
    ∀ (cfg : List (String × α)) (key : String) (value : α),
      lookupField cfg key = none →
      setKey cfg key value = cfg ++ [(key, value)] := by
  intro cfg key value
  induction cfg with
  | nil => intro _; rfl
  | cons p rest ih =>
    obtain ⟨k1, v1⟩ := p
    intro h
    by_cases hk : k1 = key
    · simp [lookupField, hk] at h
    · simp only [lookupField, if_neg hk] at h
      simp [setKey, hk, ih h]

/-- The spec's directive scenario narration. -/
def c8Narration : String := "The scene shifts. CONFIG: Set MaxSentences=7"

/-- C8: processing a configuration directive sets exactly its key —
overwriting it in place if present (same length, same lookup for every
other key), appending it if absent — and on the scenario narration the
whole pipeline rewrites `MaxSentences` to `"7"` (the first match of
`CONFIG: Set <key>=<value>`, value being the trimmed rest of the line). -/
theorem c8_config_directive :
    (∀ (cfg : List (String × String)) (key value : String),
      lookupField (update_ai_config cfg key value) key = some value ∧
      (∀ k2, k2 ≠ key →
        lookupField (update_ai_config cfg key value) k2 = lookupField cfg k2) ∧
      ((lookupField cfg key).isSome = true →
        (update_ai_config cfg key value).length = cfg.length) ∧
      (lookupField cfg key = none →
        update_ai_config cfg key value = cfg ++ [(key, value)])) ∧
    (∀ cfg : List (String × String),
      parse_and_apply_ai_config_command c8Narration cfg =
        update_ai_config cfg "MaxSentences" "7") := by
  constructor
  · intro cfg key value
    exact ⟨lookupField_setKey_self cfg key value,
      fun k2 h => lookupField_setKey_ne cfg key k2 value h,
      setKey_length_of_present cfg key value,
      setKey_append_of_absent cfg key value⟩
  · intro cfg
    rfl

/-- Sample configuration document contents (the shape `load_ai_config`
creates by default). -/
def c8SampleConfig : List (String × String) :=
  [("PromptInstructions", "Be vivid."), ("MaxSentences", "5"),
   ("AlwaysTagEntities", "true")]

/-- Witness for `c8_config_directive`: on the sample config the scenario
narration rewrites `MaxSentences` to `"7"` and leaves
`AlwaysTagEntities` and `PromptInstructions` untouched. -/
theorem c8_config_directive_witness :
    lookupField (parse_and_apply_ai_config_command c8Narration c8SampleConfig)
      "MaxSentences" = some "7" ∧
    lookupField (parse_and_apply_ai_config_command c8Narration c8SampleConfig)
      "AlwaysTagEntities" = lookupField c8SampleConfig "AlwaysTagEntities" ∧
    lookupField (parse_and_apply_ai_config_command c8Narration c8SampleConfig)
      "PromptInstructions" = lookupField c8SampleConfig "PromptInstructions" ∧
    (parse_and_apply_ai_config_command c8Narration c8SampleConfig).length =
      c8SampleConfig.length := by
  have hfull := c8_config_directive.2 c8SampleConfig
  have hupd := c8_config_directive.1 c8SampleConfig "MaxSentences" "7"
  rw [hfull]
  exact ⟨hupd.1, hupd.2.1 _ (by decide), hupd.2.1 _ (by decide),
    hupd.2.2.1 (by decide)⟩

/-! ## Session-identifier allocation (C9)

Modelled from `_get_next_session_filename` (data_manager.py lines
102–109); the glob result is passed in as the list of matching file
names. -/

/-- Python `str.split(sep)` with a single-character separator. -/
def pySplit (sep : Char) : List Char → List (List Char)
  | [] => [[]]
  | c :: rest =>
      if c == sep then [] :: pySplit sep rest
      else
        match pySplit sep rest with
        | seg :: segs => (c :: seg) :: segs
        | [] => [[c]]

/-- Python `str.isdigit` (ASCII digits, non-empty). -/
def pyIsDigit (cs : List Char) : Bool := !cs.isEmpty && cs.all Char.isDigit

/-- Python `int()` on a digit string. -/
def pyIntDigits (cs : List Char) : Nat :=
  cs.foldl (fun acc c => 10 * acc + (c.toNat - 48)) 0

/-- Numeric suffix of a save file name:
`int(f.split('-')[-1].split('.')[0])`, guarded by `isdigit()`. -/
def sessionIdOf (f : String) : Option Nat :=
  let tail := (pySplit '-' f.data).getLastD []
  let numStr := (pySplit '.' tail).headD []
  if pyIsDigit numStr then some (pyIntDigits numStr) else none

/-- Decimal digits of a number with explicit fuel (any `fuel > n` gives
the digits). -/
def natDigitsCore : Nat → Nat → List Char → List Char
  | 0, _, acc => acc
  | fuel + 1, n, acc =>
      let d := Char.ofNat (48 + n % 10)
      if n < 10 then d :: acc
      else natDigitsCore fuel (n / 10) (d :: acc)

/-- Decimal rendering of a number. -/
def natToDigits (n : Nat) : List Char := natDigitsCore (n + 1) n []

/-- Python `f"{n:03d}"`: zero-pad the decimal rendering to at least three
characters. -/
def pad3 (n : Nat) : List Char :=
  List.replicate (3 - (natToDigits n).length) '0' ++ natToDigits n

/-- Save-file name of a session index: `f"SESS-{n:03d}.xml"`. -/
def sessionName (n : Nat) : String :=
  "SESS-" ++ String.mk (pad3 n) ++ ".xml"

/-- `_get_next_session_filename()` over the matching save files:
`"SESS-001.xml"` for an empty directory, otherwise the zero-padded
successor of the largest parsed numeric suffix (`max(..., default=0) + 1`). -/
def get_next_session_filename (files : List String) : String :=
  if files.isEmpty then "SESS-001.xml"
  else sessionName ((files.filterMap sessionIdOf).foldl Nat.max 0 + 1)

/-- The accumulator of `natDigitsCore` is a suffix it appends to. -/
theorem natDigitsCore_acc :
    ∀ (fuel n : Nat) (acc : List Char),
      natDigitsCore fuel n acc = natDigitsCore fuel n [] ++ acc := by
  intro fuel
  induction fuel with
  | zero => intro n acc; rfl
  | succ f ih =>
    intro n acc
    by_cases h : n < 10
    · simp [natDigitsCore, h]
    · simp only [natDigitsCore, if_neg h]
      rw [ih (n / 10) [Char.ofNat (48 + n % 10)],
        ih (n / 10) (Char.ofNat (48 + n % 10) :: acc)]
      simp

/-- A digit character built from a digit value is a digit and carries the
value. -/
theorem digitChar_props (d : Nat) (h : d < 10) :
    (Char.ofNat (48 + d)).isDigit = true ∧ (Char.ofNat (48 + d)).toNat = 48 + d := by
  interval_cases d <;> exact ⟨by decide, by decide⟩

/-- The fold of `pyIntDigits` over an appended digit. -/
theorem pyIntDigits_append_digit (xs : List Char) (c : Char) :
    pyIntDigits (xs ++ [c]) = 10 * pyIntDigits xs + (c.toNat - 48) := by
  simp [pyIntDigits, List.foldl_append]

/-- The decimal rendering is non-empty, all digits, and parses back to the
number. -/
theorem natToDigits_props :
    ∀ n : Nat, ∀ fuel : Nat, n < fuel →
      (natDigitsCore fuel n []).isEmpty = false ∧
      (natDigitsCore fuel n []).all Char.isDigit = true ∧
      pyIntDigits (natDigitsCore fuel n []) = n := by
  intro n
  induction n using Nat.strong_induction_on with
  | _ n ih =>
    intro fuel hfuel
    match fuel, hfuel with
    | f + 1, hfuel =>
      by_cases h : n < 10
      · have hd := digitChar_props (n % 10) (Nat.mod_lt n (by omega))
        have hmod : n % 10 = n := Nat.mod_eq_of_lt h
        rw [hmod] at hd
        simp only [natDigitsCore, if_pos h, hmod]
        refine ⟨by simp, by simp [List.all, hd.1], ?_⟩
        simp only [pyIntDigits, List.foldl_cons, List.foldl_nil, hd.2]
        omega
      · have hrec : n / 10 < n := Nat.div_lt_self (by omega) (by omega)
        have hfit : n / 10 < f := by omega
        have ihh := ih (n / 10) hrec f hfit
        have hd := digitChar_props (n % 10) (Nat.mod_lt n (by omega))
        simp only [natDigitsCore, if_neg h]
        rw [natDigitsCore_acc]
        refine ⟨by simp, ?_, ?_⟩
        · rw [List.all_append]
          simp [ihh.2.1, List.all, hd.1]
        · rw [pyIntDigits_append_digit, ihh.2.2, hd.2]
          omega

/-- Leading zeros do not change the parsed value. -/
theorem pyIntDigits_replicate_zero :
    ∀ (m : Nat) (xs : List Char),
      pyIntDigits (List.replicate m '0' ++ xs) = pyIntDigits xs := by
  intro m
  induction m with
  | zero => intro xs; rfl
  | succ k ih =>
    intro xs
    simp only [List.replicate, List.cons_append, pyIntDigits, List.foldl_cons]
    have : (10 * 0 + ('0'.toNat - 48)) = 0 := by decide
    simpa [pyIntDigits] using ih xs

/-- The padded rendering is all digits and parses back to the number. -/
theorem pad3_props (n : Nat) :
    (pad3 n).isEmpty = false ∧ pyIsDigit (pad3 n) = true ∧
    pyIntDigits (pad3 n) = n := by
  have h := natToDigits_props n (n + 1) (by omega)
  unfold pad3 natToDigits
  refine ⟨?_, ?_, ?_⟩
  · rcases hh : natDigitsCore (n + 1) n [] with _ | ⟨c, cs⟩
    · rw [hh] at h; simp at h
    · simp [hh]
  · unfold pyIsDigit
    rw [List.all_append]
    have h1 : (List.replicate (3 - (natDigitsCore (n + 1) n []).length) '0').all
        Char.isDigit = true := by
      rw [List.all_eq_true]
      intro c hc
      rw [List.eq_of_mem_replicate hc]
      decide
    rcases hh : natDigitsCore (n + 1) n [] with _ | ⟨c, cs⟩
    · rw [hh] at h
      simp at h
    · have h3 := h.2.1
      rw [hh] at h3 h1
      simp [h1, h3, List.isEmpty_iff]
  · rw [pyIntDigits_replicate_zero]
    exact h.2.2

/-- Splitting a separator-free string yields one segment. -/
theorem pySplit_sep_free (sep : Char) :
    ∀ cs : List Char, (∀ c ∈ cs, (c == sep) = false) → pySplit sep cs = [cs] := by
  intro cs
  induction cs with
  | nil => intro _; rfl
  | cons c rest ih =>
    intro h
    have hc : (c == sep) = false := h c (by simp)
    simp [pySplit, hc, ih (fun x hx => h x (by simp [hx]))]

/-- Splitting at the first separator after a separator-free prefix. -/
theorem pySplit_prefix_free (sep : Char) :
    ∀ (xs ys : List Char), (∀ c ∈ xs, (c == sep) = false) →
      pySplit sep (xs ++ sep :: ys) = xs :: pySplit sep ys := by
  intro xs
  induction xs with
  | nil => intro ys _; simp [pySplit]
  | cons c rest ih =>
    intro ys h
    have hc : (c == sep) = false := h c (by simp)
    simp only [List.cons_append, pySplit, hc, Bool.false_eq_true, if_false,
      List.append_eq]
    rw [ih ys (fun x hx => h x (by simp [hx]))]

/-- A digit character is neither the dash nor the dot separator. -/
theorem isDigit_ne_seps (c : Char) (hc : c.isDigit = true) :
    (c == '-') = false ∧ (c == '.') = false := by
  constructor <;>
  · rw [beq_eq_false_iff_ne]
    intro h
    subst h
    exact absurd hc (by decide)

/-- The numeric-suffix parser inverts the session-name rendering. -/
theorem sessionIdOf_sessionName (n : Nat) : sessionIdOf (sessionName n) = some n := by
  have hp := pad3_props n
  have hdigits : ∀ c ∈ pad3 n, c.isDigit = true := by
    have h2 := hp.2.1
    unfold pyIsDigit at h2
    rw [Bool.and_eq_true, List.all_eq_true] at h2
    exact fun c hc => h2.2 c hc
  have hdata : (sessionName n).data =
      ['S', 'E', 'S', 'S'] ++ '-' :: (pad3 n ++ ('.' :: 'x' :: 'm' :: 'l' :: [])) := rfl
  have hsplit1 : pySplit '-' (sessionName n).data =
      ['S', 'E', 'S', 'S'] :: pySplit '-' (pad3 n ++ ('.' :: 'x' :: 'm' :: 'l' :: [])) := by
    rw [hdata]
    exact pySplit_prefix_free '-' _ _ (by decide)
  have hsplit2 : pySplit '-' (pad3 n ++ ('.' :: 'x' :: 'm' :: 'l' :: [])) =
      [pad3 n ++ ('.' :: 'x' :: 'm' :: 'l' :: [])] := by
    apply pySplit_sep_free
    intro c hc
    rcases List.mem_append.mp hc with h1 | h2
    · exact (isDigit_ne_seps c (hdigits c h1)).1
    · simp at h2
      rcases h2 with h | h | h | h <;> subst h <;> decide
  have hsplit3 : pySplit '.' (pad3 n ++ ('.' :: 'x' :: 'm' :: 'l' :: [])) =
      pad3 n :: pySplit '.' ('x' :: 'm' :: 'l' :: []) := by
    apply pySplit_prefix_free
    intro c hc
    exact (isDigit_ne_seps c (hdigits c hc)).2
  unfold sessionIdOf
  rw [hsplit1, hsplit2]
  simp only [List.getLastD_cons, List.getLastD_nil]
  rw [hsplit3]
  simp only [List.headD_cons]
  rw [if_pos hp.2.1]
  rw [hp.2.2]

/-- C9: an empty directory allocates `SESS-001.xml`; a directory holding
`SESS-001.xml` and `SESS-002.xml` allocates `SESS-003.xml`; the numeric
suffix parser inverts the zero-padded rendering; and over any non-empty
collection of rendered session names, the allocator returns the rendering
of the successor of the maximum index. -/
theorem c9_next_session_id :
    get_next_session_filename [] = "SESS-001.xml" ∧
    get_next_session_filename ["SESS-001.xml", "SESS-002.xml"] = "SESS-003.xml" ∧
    (∀ n : Nat, sessionIdOf (sessionName n) = some n) ∧
    (∀ ns : List Nat, ns ≠ [] →
      get_next_session_filename (ns.map sessionName) =
        sessionName (ns.foldl Nat.max 0 + 1)) := by
  have hmap : ∀ ms : List Nat, (ms.map sessionName).filterMap sessionIdOf = ms := by
    intro ms
    induction ms with
    | nil => rfl
    | cons m rest ih2 =>
      simp only [List.map_cons, List.filterMap_cons, sessionIdOf_sessionName]
      rw [ih2]
  refine ⟨rfl, rfl, sessionIdOf_sessionName, ?_⟩
  intro ns hns
  match ns, hns with
  | m :: rest, _ =>
    have hne : ((m :: rest).map sessionName).isEmpty = false := rfl
    unfold get_next_session_filename
    rw [if_neg (by rw [hne]; exact Bool.false_ne_true)]
    rw [hmap (m :: rest)]

/-- Witness for `c9_next_session_id`: the suffix of `SESS-042.xml` parses
back to 42, and a directory holding names for indices 3, 1 and 2
allocates the name for index 4. -/
theorem c9_next_session_id_witness :
    sessionIdOf (sessionName 42) = some 42 ∧
    get_next_session_filename ([3, 1, 2].map sessionName) = sessionName 4 := by
  refine ⟨c9_next_session_id.2.2.1 42, ?_⟩
  have h := c9_next_session_id.2.2.2 [3, 1, 2] (by simp)
  rw [h]
  rfl

/-! ## Load-time Memory initialization (C10)

Modelled from `load_game_state` (data_manager.py lines 34–48): on a
successful parse the game state is the root's attributes merged with its
parsed children (`{**root.attrib, **{child.tag: _parse_xml_node(child)}}`;
a later duplicate tag overwrites the earlier value in place), after which
`Memory` is defaulted to `{"Fact": []}` when absent. -/

/-- The child-merging fold of the root dict comprehension. -/
def loadChildren (base : List (String × GVal)) (children : List Xml) :
    List (String × GVal) :=
  children.foldl (fun d c => setKey d c.tag (decodeElem c)) base

/-- `load_game_state` on a successfully parsed document root, returning
the game-state dict. -/
def load_game_state (root : Xml) : List (String × GVal) :=
  match root with
  | .elem _ attrs _ children =>
    let gs := loadChildren (attrs.map (fun p => (p.1, GVal.scalar p.2))) children
    if (lookupField gs "Memory").isSome then gs
    else gs ++ [("Memory", GVal.record [("Fact", GVal.list [])])]

/-- Setting a different key never makes a lookup succeed. -/
theorem lookupField_setKey_none {α : Type} {key : String}
    (d : List (String × α)) (t : String) (v : α)
    (ht : t ≠ key) (hd : lookupField d key = none) :
    lookupField (setKey d t v) key = none := by
  rw [lookupField_setKey_ne d t key v (Ne.symm ht)]
  exact hd

/-- The child fold introduces no key beyond the base keys and child tags. -/
theorem lookupField_loadChildren_none {key : String} :
    ∀ (children : List Xml) (base : List (String × GVal)),
      lookupField base key = none →
      (∀ c ∈ children, c.tag ≠ key) →
      lookupField (loadChildren base children) key = none := by
  intro children
  induction children with
  | nil => intro base hb _; exact hb
  | cons c cs ih =>
    intro base hb hc
    simp only [loadChildren, List.foldl_cons]
    exact ih _ (lookupField_setKey_none base c.tag (decodeElem c)
        (hc c (by simp)) hb)
      (fun x hx => hc x (by simp [hx]))

/-- Attributes avoiding a key leave its lookup empty. -/
theorem lookupField_attrsMap_none {key : String} :
    ∀ attrs : List (String × String), (∀ a ∈ attrs, a.1 ≠ key) →
      lookupField (attrs.map (fun p => (p.1, GVal.scalar p.2))) key = none := by
  intro attrs
  induction attrs with
  | nil => intro _; rfl
  | cons a rest ih =>
    intro h
    obtain ⟨k1, v1⟩ := a
    have hk : k1 ≠ key := h (k1, v1) (by simp)
    simp only [List.map_cons, lookupField, if_neg hk]
    exact ih (fun x hx => h x (by simp [hx]))

/-- C10: every game state returned by a successful load contains the key
`Memory`; and when the loaded document has no `Memory` child element (and,
as in every document `save_game_state` writes, no `Memory` attribute), the
returned state carries `Memory = {"Fact": []}`. -/
theorem c10_memory_default (root : Xml) :
    (lookupField (load_game_state root) "Memory").isSome = true ∧
    ((∀ c ∈ root.children, c.tag ≠ "Memory") →
      (∀ a ∈ root.attrs, a.1 ≠ "Memory") →
      lookupField (load_game_state root) "Memory" =
        some (GVal.record [("Fact", GVal.list [])])) := by
  obtain ⟨tag, attrs, text, children⟩ := root
  constructor
  · by_cases hmem : (lookupField (loadChildren
        (attrs.map (fun p => (p.1, GVal.scalar p.2))) children) "Memory").isSome = true
    · simp [load_game_state, hmem]
    · have hnone : lookupField (loadChildren
          (attrs.map (fun p => (p.1, GVal.scalar p.2))) children) "Memory" = none := by
        rcases hh : lookupField (loadChildren
            (attrs.map (fun p => (p.1, GVal.scalar p.2))) children) "Memory" with _ | w
        · exact hh
        · rw [hh] at hmem; simp at hmem
      simp only [load_game_state, hmem, if_false, Bool.false_eq_true]
      rw [lookupField_append_left_none hnone]
      rfl
  · intro hch hat
    have hnone : lookupField (loadChildren
        (attrs.map (fun p => (p.1, GVal.scalar p.2))) children) "Memory" = none :=
      lookupField_loadChildren_none children _
        (lookupField_attrsMap_none attrs (by simpa using hat)) (by simpa using hch)
    simp only [load_game_state, hnone, Option.isSome_none, Bool.false_eq_true, if_false]
    rw [lookupField_append_left_none hnone]
    rfl

/-- Document for the `c10_memory_default` witness: a session root with an
id attribute and a Log child but no Memory. -/
def c10WitnessRoot : Xml :=
  .elem "Session" [("id", "SESS-001")] none
    [.elem "Log" [] none [.elem "Entry" [] (some "a log line") []]]

/-- Witness for `c10_memory_default`: loading the Memory-free document
yields a state whose `Memory` is `{"Fact": []}`. -/
theorem c10_memory_default_witness :
    (lookupField (load_game_state c10WitnessRoot) "Memory").isSome = true ∧
    lookupField (load_game_state c10WitnessRoot) "Memory" =
      some (GVal.record [("Fact", GVal.list [])]) := by
  have h := c10_memory_default c10WitnessRoot
  refine ⟨h.1, h.2 ?_ ?_⟩
  · intro c hc
    simp [c10WitnessRoot, Xml.children] at hc
    rw [hc]
    decide
  · intro a ha
    simp [c10WitnessRoot, Xml.attrs] at ha
    rw [ha]
    decide
